import Mathlib

/-!
Verification development for the dsa-visualizer core:
input extraction (`codeParser.js`), pattern classification
(`algorithmDetector.js`) and trace synthesis (`generateVisualizationSteps`).

Modelling conventions:
* JS numbers are modelled as `Int`; numeric literals appearing in the
  parsed texts are restricted to (signed) decimal integers, matching the
  spec's data model of integer sequences.  Fractional, hexadecimal and
  `Infinity` literals are outside the model.
* JS `array[i]` is modelled as `Option Int` (`none` = `undefined`).
* A JS variable that may hold `null`/`NaN`/a number is modelled as
  `Option Int`; the JS falsiness check `!x` for such a variable is
  `jsFalsyOptInt` (`null`, `NaN` and `0` are falsy).
* `Math.floor((l + r) / 2)` is Lean's `Int` division `/`, which is
  floor (euclidean, positive divisor) division.
* The JS regexes of `codeParser.js` are modelled by explicit scanning
  functions over `List Char`; comments at each definition record the
  regex it implements and why the scan agrees with the `g`-flag
  (non-overlapping, leftmost) match semantics.
-/

/-! ### Generic JS-style string helpers -/

/-- Recursive containment check (`needle.isPrefixOf hay` or recurse on the tail): JS
`String.prototype.includes` on explicit character lists. -/
def listContains : List Char → List Char → Bool
  | hay, needle =>
    needle.isPrefixOf hay ||
      match hay with
      | [] => false
      | _ :: t => listContains t needle

/-- JS `code.includes(sub)`. -/
def jsIncludes (s sub : String) : Bool :=
  listContains s.toList sub.toList

/-- JS `String.prototype.toLowerCase` (ASCII case fold). -/
def toLowerCase (s : String) : String :=
  String.mk (s.toList.map Char.toLower)

/-- JS `String.prototype.trim` on a character list. -/
def jsTrim (l : List Char) : List Char :=
  ((l.dropWhile Char.isWhitespace).reverse.dropWhile Char.isWhitespace).reverse

/-- JS `str.split(',')`: splits on every comma, keeping empty pieces
(`"".split(',') = [""]`). -/
def splitComma : List Char → List (List Char)
  | [] => [[]]
  | c :: t =>
    match splitComma t with
    | [] => [[]]
    | cur :: rest => if c = ',' then [] :: cur :: rest else (c :: cur) :: rest

/-- Numeric value of a (non-empty) run of decimal digits. -/
def digitsVal (l : List Char) : Nat :=
  l.foldl (fun acc c => 10 * acc + (c.toNat - '0'.toNat)) 0

/-- Splits off the leading run of decimal digits. -/
def takeDigits (l : List Char) : List Char × List Char :=
  (l.takeWhile Char.isDigit, l.dropWhile Char.isDigit)

/-- Drops leading whitespace (JS regex `\s*`). -/
def skipWs (l : List Char) : List Char :=
  l.dropWhile Char.isWhitespace

/-- Signed decimal integer at the head of `l`, ignoring anything after the
digits: the integer fragment of JS `parseFloat`/`parseInt` prefix parsing
(`none` = `NaN`).  Fractional and hexadecimal literals are outside the
model (see the header comment). -/
def parseNumPre (l : List Char) : Option Int :=
  let (sign, l') : Int × List Char :=
    match l with
    | '-' :: t => (-1, t)
    | '+' :: t => (1, t)
    | _ => (1, l)
  let (ds, _) := takeDigits l'
  if ds = [] then none else some (sign * (digitsVal ds : Int))

/-- JS `parseInt(str)`: leading whitespace is skipped, then a signed
decimal prefix is parsed; `none` models `NaN`. -/
def parseIntJS (s : String) : Option Int :=
  parseNumPre (skipWs s.toList)

/-- JS falsiness of a value that is either `null`/`NaN` (`none`) or a
number: `null`, `NaN` and `0` are falsy. -/
def jsFalsyOptInt : Option Int → Bool
  | none => true
  | some n => n == 0

/-! ### `codeParser.js` -/

/-- The result object of `parseCodeInput` (`codeParser.js`).  The source
also carries `variables: {}` and `functions: []`, which are never written
or read; they are omitted.  `target = none` models `null`/`NaN`. -/
structure ParseResult where
  arrays : List (List Int)
  target : Option Int
deriving DecidableEq, Repr

/-- The function `parseNumberArray` (`codeParser.js`): split on commas, trim, drop
empty tokens, parse each token as a number and keep only numeric tokens
(non-numeric tokens are filtered out by the `typeof item === 'number'`
filter in the source; in this model `parseFloat` is restricted to integer
literals, see the header comment). -/
def parseNumberArray (content : List Char) : List Int :=
  (((splitComma content).map jsTrim).filter (· ≠ [])).filterMap parseNumPre

/-- The regex `/\[([^\[\]]*)\]/` anchored at the head of `l`: an opening
bracket, a run of non-bracket characters, a closing bracket; returns the
captured content.  (`[^\[\]]*` is greedy, but since it can never consume a
bracket the maximal run is the only candidate.) -/
def bracketAt (l : List Char) : Option (List Char) :=
  match l with
  | '[' :: rest =>
    let content := rest.takeWhile fun c => c ≠ '[' && c ≠ ']'
    if (rest.drop content.length).head? = some ']' then some content else none
  | _ => none

/-- All matches of an anchored pattern, scanning every start position left
to right.  This agrees with JS `g`-flag semantics (resume after each
match) for the patterns used here: a bracket-literal match contains no
`[`, so no new match can start strictly inside an earlier one. -/
def scanAll (m : List Char → Option (List Char)) : List Char → List (List Char)
  | [] => []
  | l =>
    match l with
    | [] => []
    | _ :: t =>
      (match m l with
       | some c => [c]
       | none => []) ++ scanAll m t

/-- The regex `name\s*=\s*\[([^\[\]]*)\]` anchored at the head of `l`
(case-sensitive; the array patterns in `extractArrays` carry no `i`
flag). -/
def assignAt (name : List Char) (l : List Char) : Option (List Char) :=
  if name.isPrefixOf l then
    let l1 := skipWs (l.drop name.length)
    match l1 with
    | '=' :: l2 => bracketAt (skipWs l2)
    | _ => none
  else none

/-- The loop body of `extractArrays` for one regex match: the trimmed
capture must be non-empty (`if (arrayContent)`) and must yield at least
one number (`if (numbers.length > 0)`) to be pushed. -/
def candidateOf (content : List Char) : Option (List Int) :=
  if jsTrim content ≠ [] then
    if parseNumberArray (jsTrim content) ≠ [] then
      some (parseNumberArray (jsTrim content))
    else none
  else none

/-- The `arrays` accumulator of `extractArrays` after the `forEach` over
the four array regexes (`/\[([^\[\]]*)\]/g`, then the
`arr`/`array`/`nums` assignment variants), each appending all its
matches in order. -/
def arrayMatches (code : String) : List (List Int) :=
  (scanAll bracketAt code.toList ++
    scanAll (assignAt "arr".toList) code.toList ++
    scanAll (assignAt "array".toList) code.toList ++
    scanAll (assignAt "nums".toList) code.toList).filterMap candidateOf

/-- The function `extractArrays` (`codeParser.js`): every regex match whose trimmed
content is non-empty and yields at least one number becomes a candidate
sequence; if none does, the default sequence is substituted. -/
def extractArrays (code : String) : List (List Int) :=
  if arrayMatches code = [] then [[1, 3, 5, 7, 9, 11, 13, 15, 17, 19]]
  else arrayMatches code

/-- Case-insensitive literal prefix match (for regexes with the `i`
flag); returns the rest of the input after the literal. -/
def matchCI (pat : List Char) (l : List Char) : Option (List Char) :=
  match pat, l with
  | [], l => some l
  | _ :: _, [] => none
  | p :: ps, c :: cs =>
    if p.toLower = c.toLower then matchCI ps cs else none

/-- Requires a non-empty digit run at the head and returns its value
(the capture group `(\d+)`) together with the rest of the input. -/
def capDigits (l : List Char) : Option (Int × List Char) :=
  let (ds, rest) := takeDigits l
  if ds = [] then none else some ((digitsVal ds : Int), rest)

/-- The regex `/target\s*=\s*(\d+)/i` anchored at the head of `l`. -/
def targetEqAt (l : List Char) : Option Int :=
  match matchCI "target".toList l with
  | none => none
  | some l1 =>
    match skipWs l1 with
    | '=' :: l2 => (capDigits (skipWs l2)).map Prod.fst
    | _ => none

/-- The regex `/find\s*\(\s*(\d+)\s*\)/i` anchored at the head of `l`. -/
def findCallAt (l : List Char) : Option Int :=
  match matchCI "find".toList l with
  | none => none
  | some l1 =>
    match skipWs l1 with
    | '(' :: l2 =>
      match capDigits (skipWs l2) with
      | some (v, l3) =>
        match skipWs l3 with
        | ')' :: _ => some v
        | _ => none
      | none => none
    | _ => none

/-- The tail `,\s*(\d+)\s*\)` of the `search` regex, preceded by the lazy
`.*?`: at each position first try to match the tail, otherwise let `.*?`
consume one more (non-newline) character — exactly the backtracking order
of a lazy quantifier. -/
def searchTail : List Char → Option Int
  | [] => none
  | c :: rest =>
    (if c = ',' then
      match capDigits (skipWs rest) with
      | some (v, l3) =>
        match skipWs l3 with
        | ')' :: _ => some v
        | _ => none
      | none => none
    else none).orElse fun _ =>
      if c = '\n' then none else searchTail rest

/-- The regex `/search\s*\(\s*.*?,\s*(\d+)\s*\)/i` anchored at the head of `l`. -/
def searchCallAt (l : List Char) : Option Int :=
  match matchCI "search".toList l with
  | none => none
  | some l1 =>
    match skipWs l1 with
    | '(' :: l2 => searchTail (skipWs l2)
    | _ => none

/-- The regex `/== (\d+)/` anchored at the head of `l` (case-sensitive, a literal
single space after `==`). -/
def eqeqAt (l : List Char) : Option Int :=
  match l with
  | '=' :: '=' :: ' ' :: l1 => (capDigits l1).map Prod.fst
  | _ => none

/-- The regex `/target:\s*(\d+)/i` anchored at the head of `l`. -/
def targetColonAt (l : List Char) : Option Int :=
  match matchCI "target".toList l with
  | none => none
  | some l1 =>
    match l1 with
    | ':' :: l2 => (capDigits (skipWs l2)).map Prod.fst
    | _ => none

/-- First (leftmost) match of an anchored pattern: JS `code.match(re)`
without the `g` flag tries every start position left to right. -/
def scanFirst (m : List Char → Option Int) : List Char → Option Int
  | [] => m []
  | l =>
    match l with
    | [] => m []
    | _ :: t =>
      match m l with
      | some v => some v
      | none => scanFirst m t

/-- The function `extractTarget` (`codeParser.js`): tries the five target regexes in
order, returning the first pattern's first match; defaults to `7`. -/
def extractTarget (code : String) : Int :=
  let cs := code.toList
  match scanFirst targetEqAt cs with
  | some v => v
  | none =>
    match scanFirst findCallAt cs with
    | some v => v
    | none =>
      match scanFirst searchCallAt cs with
      | some v => v
      | none =>
        match scanFirst eqeqAt cs with
        | some v => v
        | none =>
          match scanFirst targetColonAt cs with
          | some v => v
          | none => 7

/-- The custom-array pipeline of `parseCodeInput`:
`customArray.split(',').map(n => parseInt(n.trim())).filter(n => !isNaN(n))`
(a trimmed token needs no further whitespace skipping, so `parseInt` is
`parseNumPre` here). -/
def customArrayList (s : String) : List Int :=
  ((splitComma s.toList).map jsTrim).filterMap parseNumPre

/-- The `parseResult.arrays` state after the `if (customArray)` block:
`undefined` (`none`) and the empty string are JS-falsy and leave the
accumulator empty. -/
def customArrays (customArray : Option String) : List (List Int) :=
  match customArray with
  | some s =>
    if s ≠ "" then
      if customArrayList s ≠ [] then [customArrayList s] else []
    else []
  | none => []

/-- The `parseResult.target` state after the `if (customTarget)` block
(`none` models both `null` and a `NaN` parse). -/
def customTargetVal (customTarget : Option String) : Option Int :=
  match customTarget with
  | some s => if s ≠ "" then parseIntJS s else none
  | none => none

/-- The function `parseCodeInput` (`codeParser.js`).  `customArray`/`customTarget` are
the optional UI override strings (`undefined` = `none`; the JS truthiness
test `if (customArray)` fails on `undefined` and on the empty string).
The `try/catch` of the source is dead in this model: none of the string
operations involved can throw, so the fallback branch is unreachable. -/
def parseCodeInput (code : String) (customArray customTarget : Option String) :
    ParseResult :=
  { arrays :=
      if customArrays customArray = [] then extractArrays code
      else customArrays customArray,
    target :=
      if jsFalsyOptInt (customTargetVal customTarget) then
        some (extractTarget code)
      else customTargetVal customTarget }

/-! ### `algorithmDetector.js` -/

/-- One entry of the `detectionResults` registry: a pattern name and its
confidence score. -/
structure NamedScore where
  name : String
  score : ℚ
deriving DecidableEq, Repr

/-- The detector `detectBinarySearch` (`algorithmDetector.js`).  Its `lines` parameter
is never read by any detector and is omitted throughout. -/
def detectBinarySearch (code : String) : ℚ :=
  let score : ℚ :=
    (if jsIncludes code "left" && jsIncludes code "right" then 0.3 else 0) +
    (if jsIncludes code "mid" || jsIncludes code "middle" then 0.4 else 0) +
    (if jsIncludes code "while" && (jsIncludes code "left" && jsIncludes code "right")
      then 0.2 else 0) +
    (if jsIncludes code "//" || jsIncludes code "/" || jsIncludes code ">>"
      then 0.1 else 0) +
    (if jsIncludes code "binary" || jsIncludes code "search" then 0.2 else 0) +
    (if jsIncludes code "sorted" || jsIncludes code "ascending" then 0.1 else 0)
  min score 1.0

/-- The detector `detectTwoPointers` (`algorithmDetector.js`): positive evidence minus
the `mid` penalty, clamped below by `0`. -/
def detectTwoPointers (code : String) : ℚ :=
  let score : ℚ :=
    (if jsIncludes code "left" && jsIncludes code "right" then 0.3 else 0) +
    (if jsIncludes code "++" || jsIncludes code "--" then 0.2 else 0) +
    (if jsIncludes code "while" && !jsIncludes code "mid" then 0.2 else 0) +
    (if jsIncludes code "sum" || jsIncludes code "target" then 0.2 else 0) -
    (if jsIncludes code "mid" then 0.4 else 0)
  max score 0

/-- The detector `detectSlidingWindow` (`algorithmDetector.js`). -/
def detectSlidingWindow (code : String) : ℚ :=
  let score : ℚ :=
    (if jsIncludes code "window" then 0.4 else 0) +
    (if jsIncludes code "start" && jsIncludes code "end" then 0.3 else 0) +
    (if jsIncludes code "substring" || jsIncludes code "subarray" then 0.2 else 0) +
    (if jsIncludes code "expand" || jsIncludes code "contract" then 0.2 else 0)
  min score 1.0

/-- Number of non-overlapping occurrences of the literal `for` —
`(code.match(/for/g) || []).length`: leftmost matches, resuming after
each match. -/
def countFor : List Char → Nat
  | 'f' :: 'o' :: 'r' :: t => 1 + countFor t
  | _ :: t => countFor t
  | [] => 0

/-- The detector `detectSorting` (`algorithmDetector.js`). -/
def detectSorting (code : String) : ℚ :=
  let score : ℚ :=
    (if jsIncludes code "sort" then 0.4 else 0) +
    (if jsIncludes code "swap" then 0.3 else 0) +
    (if countFor code.toList ≥ 2 then 0.3 else 0) +
    (if jsIncludes code "bubble" || jsIncludes code "quick" || jsIncludes code "merge"
      then 0.3 else 0)
  min score 1.0

/-- The detector `detectDP` (`algorithmDetector.js`). -/
def detectDP (code : String) : ℚ :=
  let score : ℚ :=
    (if jsIncludes code "dp" || jsIncludes code "memo" then 0.4 else 0) +
    (if jsIncludes code "cache" || jsIncludes code "memoization" then 0.3 else 0) +
    (if jsIncludes code "dynamic" || jsIncludes code "programming" then 0.2 else 0) +
    (if jsIncludes code "optimal" || jsIncludes code "subproblem" then 0.2 else 0)
  min score 1.0

/-- The detector `detectTreeTraversal` (`algorithmDetector.js`). -/
def detectTreeTraversal (code : String) : ℚ :=
  let score : ℚ :=
    (if jsIncludes code "tree" || jsIncludes code "node" then 0.3 else 0) +
    (if jsIncludes code "left" && jsIncludes code "right" && jsIncludes code "root"
      then 0.4 else 0) +
    (if jsIncludes code "dfs" || jsIncludes code "bfs" then 0.3 else 0) +
    (if jsIncludes code "preorder" || jsIncludes code "inorder" ||
        jsIncludes code "postorder" then 0.2 else 0)
  min score 1.0

/-- The `detectionResults` registry of `detectAlgorithm`, in source
registration order; every detector receives the lower-cased code. -/
def detectionResults (code : String) : List NamedScore :=
  let lowerCode := toLowerCase code
  [⟨"Binary Search", detectBinarySearch lowerCode⟩,
   ⟨"Two Pointers", detectTwoPointers lowerCode⟩,
   ⟨"Sliding Window", detectSlidingWindow lowerCode⟩,
   ⟨"Sorting Algorithm", detectSorting lowerCode⟩,
   ⟨"Dynamic Programming", detectDP lowerCode⟩,
   ⟨"Tree Traversal", detectTreeTraversal lowerCode⟩]

/-- Stable insertion (descending by score): an element moves in front of
the first entry whose score it meets or exceeds, so earlier-registered
entries stay in front of later ones with the same score. -/
def insertByScore (x : NamedScore) : List NamedScore → List NamedScore
  | [] => [x]
  | y :: ys => if x.score ≥ y.score then x :: y :: ys else y :: insertByScore x ys

/-- The call `detectionResults.sort((a, b) => b.score - a.score)`: JS `sort` is
stable, and a stable descending sort is unique, so insertion sort models
it exactly. -/
def sortDesc : List NamedScore → List NamedScore
  | [] => []
  | x :: xs => insertByScore x (sortDesc xs)

/-- The `bestMatch` local of `detectAlgorithm`: the head of the sorted
results (the results list is statically non-empty, so the default is
never used). -/
def bestMatch (code : String) : NamedScore :=
  (sortDesc (detectionResults code)).headD ⟨"Unknown Algorithm", 0⟩

/-- The function `detectAlgorithm` (`algorithmDetector.js`): the best match's name if
its score exceeds `0.3`, otherwise the sentinel label.  The source
returns only this label; `bestMatch` above exposes the internally
computed top confidence. -/
def detectAlgorithm (code : String) : String :=
  if (bestMatch code).score > 0.3 then (bestMatch code).name
  else "Unknown Algorithm"

/-- Leftmost maximum of the registry, by direct recursion: a candidate is
replaced only by a strictly greater later score.  Used to state the
tie-break property of `detectAlgorithm`. -/
def bestOf : List NamedScore → Option NamedScore
  | [] => none
  | x :: xs =>
    match bestOf xs with
    | none => some x
    | some b => some (if x.score ≥ b.score then x else b)

/-! ### The trace synthesizer (`generateVisualizationSteps`) -/

/-- One element of the steps array.  The JS objects are discriminated by
their `type` field (`'binary_search'`, `'simple'`, `'two_pointers'`),
modelled as constructors. -/
inductive VisStep where
  | binarySearch (description : String) (array : List Int) (target : Int)
      (left right : Int) (mid : Option Int) (found : Bool)
      (explanation : String)
  | simple (description : String) (data : ParseResult)
  | twoPointers (description : String) (data : ParseResult)
      (explanation : String)
deriving DecidableEq, Repr

/-- The `found` flag of a step's snapshot (`false` for the placeholder
steps, which carry none). -/
def stepFound : VisStep → Bool
  | .binarySearch _ _ _ _ _ _ found _ => found
  | _ => false

/-- The `mid` field of a step's snapshot (`none` = JS `null`). -/
def stepMid : VisStep → Option Int
  | .binarySearch _ _ _ _ _ mid _ _ => mid
  | _ => none

/-- The `left` field of a step's snapshot. -/
def stepLeft : VisStep → Option Int
  | .binarySearch _ _ _ left _ _ _ _ => some left
  | _ => none

/-- The `right` field of a step's snapshot. -/
def stepRight : VisStep → Option Int
  | .binarySearch _ _ _ _ right _ _ _ => some right
  | _ => none

/-- The `array` field of a step's snapshot. -/
def stepArray : VisStep → List Int
  | .binarySearch _ array _ _ _ _ _ _ => array
  | _ => []

/-- The `target` field of a step's snapshot. -/
def stepTarget : VisStep → Option Int
  | .binarySearch _ _ target _ _ _ _ _ => some target
  | _ => none

/-- A comparison step: a `binary_search` step emitted inside the loop
(`mid` set, `found` still false). -/
def isComparison (s : VisStep) : Bool :=
  (stepMid s).isSome && !stepFound s

/-- JS `array[i]` on an integer index: `undefined` (`none`) when out of
bounds or negative. -/
def jsIndex (a : List Int) (i : Int) : Option Int :=
  if i < 0 then none else a.get? i.toNat

/-- JS `array[mid] < target`: `false` when `array[mid]` is `undefined`
(the comparison with `NaN`). -/
def jsLtTarget (v : Option Int) (target : Int) : Bool :=
  match v with
  | some x => x < target
  | none => false

/-- Rendering of `array[mid]` inside a template literal. -/
def jsValStr (v : Option Int) : String :=
  match v with
  | some x => toString x
  | none => "undefined"

/-- The comparison step pushed at the top of each loop iteration of
`generateBinarySearchSteps`. -/
def compStep (array : List Int) (target : Int) (l r mid : Int) (n : Nat) :
    VisStep :=
  let midStr := toString mid
  let vStr := jsValStr (jsIndex array mid)
  let tgtStr := toString target
  let nStr := toString n
  .binarySearch (s!"Step {nStr}: Calculate mid = {midStr}") array target l r
    (some mid) false
    (s!"Mid index is {midStr}, value is {vStr}. Comparing {vStr} with target {tgtStr}.")

/-- The success step pushed when `array[mid] === target`. -/
def foundStep (array : List Int) (target : Int) (l r mid : Int) : VisStep :=
  let midStr := toString mid
  let tgtStr := toString target
  .binarySearch (s!"Found target {tgtStr} at index {midStr}!") array target l r
    (some mid) true
    (s!"Success! Target {tgtStr} found at index {midStr}. Search complete!")

/-- The `while (left <= right && stepCount < 10)` loop of
`generateBinarySearchSteps`, with the bound `stepCount < 10` realized by
the structural fuel `fuel = 10 - stepCount` (the top-level call
`bsLoop` establishes this; the loop-characterization theorem for C3
proves that the two guards agree).  Each iteration pushes one comparison
step, then either pushes the success step and stops, or narrows the
bounds and continues with `stepCount + 1`. -/
def bsLoopF (array : List Int) (target : Int) :
    Nat → Int → Int → Nat → List VisStep
  | 0, _, _, _ => []
  | fuel + 1, l, r, n =>
    if l ≤ r then
      let mid := (l + r) / 2
      let c := compStep array target l r mid n
      if jsIndex array mid = some target then
        [c, foundStep array target l r mid]
      else if jsLtTarget (jsIndex array mid) target then
        c :: bsLoopF array target fuel (mid + 1) r (n + 1)
      else
        c :: bsLoopF array target fuel l (mid - 1) (n + 1)
    else []

/-- The loop of `generateBinarySearchSteps`, entered with step counter
`n`. -/
def bsLoop (array : List Int) (target : Int) (l r : Int) (n : Nat) :
    List VisStep :=
  bsLoopF array target (10 - n) l r n

/-- The initial step (step 0) of `generateBinarySearchSteps`. -/
def initStep (array : List Int) (target : Int) (l r : Int) : VisStep :=
  let lStr := toString l
  let rStr := toString r
  let tgtStr := toString target
  let joined := String.intercalate ", " (array.map toString)
  .binarySearch (s!"Starting Binary Search for target {tgtStr}") array target
    l r none false
    (s!"Initialize: left = {lStr}, right = {rStr}. Array: [{joined}]")

/-- The array chosen by `generateBinarySearchSteps`:
`parsedData.arrays.length > 0 ? parsedData.arrays[0] : [1, 3, 5, 7, 9, 11]`. -/
def chosenArray (parsedData : ParseResult) : List Int :=
  match parsedData.arrays with
  | [] => [1, 3, 5, 7, 9, 11]
  | a :: _ => a

/-- The target chosen by `generateBinarySearchSteps`:
`parsedData.target || 7` (JS `||`: `null`, `NaN` and `0` fall back). -/
def chosenTarget (parsedData : ParseResult) : Int :=
  match parsedData.target with
  | some n => if n = 0 then 7 else n
  | none => 7

/-- The function `generateBinarySearchSteps` (the binary-search reference
simulation): the initial step, then the comparison loop started with
`left = 0`, `right = array.length - 1`, `stepCount = 1`. -/
def generateBinarySearchSteps (parsedData : ParseResult) : List VisStep :=
  let array := chosenArray parsedData
  let target := chosenTarget parsedData
  initStep array target 0 ((array.length : Int) - 1) ::
    bsLoop array target 0 ((array.length : Int) - 1) 1

/-- The function `generateTwoPointersSteps`: the single-step placeholder for the
two-pointer label. -/
def generateTwoPointersSteps (parsedData : ParseResult) : List VisStep :=
  [.twoPointers "Two Pointers algorithm detected" parsedData
    "Two Pointers visualization will be implemented soon!"]

/-- The function `generateVisualizationSteps` (the `synthesize` entry point): a
reference simulation for `Binary Search`, the two-pointer placeholder for
`Two Pointers`, and a generic single placeholder step for every other
label. -/
def generateVisualizationSteps (algorithm : String) (parsedData : ParseResult) :
    List VisStep :=
  if algorithm = "Binary Search" then generateBinarySearchSteps parsedData
  else if algorithm = "Two Pointers" then generateTwoPointersSteps parsedData
  else [.simple (algorithm ++ " visualization coming soon!") parsedData]

/-- The 1-based step indices of a trace: steps are handed to the renderer
as an array and indexed by position, so step `k` of the trace carries
index `k` (`1 ≤ k ≤ N`). -/
def traceIndices (t : List VisStep) : List Nat :=
  List.range' 1 t.length

/-! ### Helper lemmas -/

/-- A pushed candidate sequence is non-empty. -/
lemma candidateOf_ne_nil {c : List Char} {a : List Int}
    (h : candidateOf c = some a) : a ≠ [] := by
  unfold candidateOf at h
  split at h
  · split at h
    · cases h
      assumption
    · cases h
  · cases h

/-- Every sequence produced by `extractArrays` is non-empty, and the
result list itself is non-empty. -/
lemma extractArrays_sound (code : String) :
    extractArrays code ≠ [] ∧ ∀ a ∈ extractArrays code, a ≠ [] := by
  unfold extractArrays
  split
  · exact ⟨by simp, by intro a ha; simp only [List.mem_singleton] at ha; subst ha; simp⟩
  · refine ⟨by assumption, ?_⟩
    intro a ha
    rcases List.mem_filterMap.mp ha with ⟨c, _, hfc⟩
    exact candidateOf_ne_nil hfc

/-- Every sequence kept from the custom-array override is non-empty. -/
lemma customArrays_sound (ca : Option String) :
    ∀ a ∈ customArrays ca, a ≠ [] := by
  intro a ha
  rcases ca with _ | s
  · simp [customArrays] at ha
  · simp only [customArrays] at ha
    split_ifs at ha with h1 h2 <;> simp_all

/-- The function `parseCodeInput` always produces a defined target and a non-empty
list of non-empty sequences. -/
lemma parseCodeInput_sound (code : String) (ca ct : Option String) :
    (parseCodeInput code ca ct).arrays ≠ [] ∧
      (∀ a ∈ (parseCodeInput code ca ct).arrays, a ≠ []) ∧
      ((parseCodeInput code ca ct).target).isSome = true := by
  unfold parseCodeInput
  refine ⟨?_, ?_, ?_⟩
  · simp only []
    split
    · exact (extractArrays_sound code).1
    · assumption
  · intro a ha
    simp only [] at ha
    split at ha
    · exact (extractArrays_sound code).2 a ha
    · exact customArrays_sound ca a ha
  · simp only []
    split
    · simp
    · rcases h : customTargetVal ct with _ | n
      · simp_all [jsFalsyOptInt]
      · simp [h]

/-! ### Claim theorems -/

/-- C1: for every label and every problem instance, `synthesize`
(`generateVisualizationSteps`) returns a non-empty trace whose 1-based
step indices are exactly `1..N` with no gaps or repeats; labels without a
reference simulator yield a single-step placeholder trace. -/
theorem claim1_trace_nonempty_indexed (label : String) (p : ParseResult) :
    generateVisualizationSteps label p ≠ [] ∧
      traceIndices (generateVisualizationSteps label p) =
        List.range' 1 (generateVisualizationSteps label p).length ∧
      (traceIndices (generateVisualizationSteps label p)).Nodup ∧
      (label ≠ "Binary Search" → label ≠ "Two Pointers" →
        (generateVisualizationSteps label p).length = 1) := by
  refine ⟨?_, rfl, List.nodup_range' _ _, ?_⟩
  · unfold generateVisualizationSteps
    split
    · simp [generateBinarySearchSteps]
    · split <;> simp [generateTwoPointersSteps]
  · intro h1 h2
    unfold generateVisualizationSteps
    rw [if_neg h1, if_neg h2]
    rfl

/-- Witness for C1 at a label with no reference simulator. -/
theorem claim1_witness :
    generateVisualizationSteps "Sorting Algorithm" ⟨[[2, 1]], some 2⟩ ≠ [] ∧
      (generateVisualizationSteps "Sorting Algorithm" ⟨[[2, 1]], some 2⟩).length = 1 :=
  ⟨(claim1_trace_nonempty_indexed "Sorting Algorithm" ⟨[[2, 1]], some 2⟩).1,
   (claim1_trace_nonempty_indexed "Sorting Algorithm" ⟨[[2, 1]], some 2⟩).2.2.2
     (by decide) (by decide)⟩

/-- C2 counterexample: on `[1,3,5,7,9,11]` with target `7` the synthesized
trace has 5 steps, not 4, and the comparison `mid` sequence is `2, 4, 3`
(a comparison step with `mid = 3` is emitted before the `found` step). -/
theorem claim2_counterexample :
    (generateVisualizationSteps "Binary Search" ⟨[[1, 3, 5, 7, 9, 11]], some 7⟩).length ≠ 4 ∧
      (generateVisualizationSteps "Binary Search"
          ⟨[[1, 3, 5, 7, 9, 11]], some 7⟩).map stepMid ≠
        [none, some 2, some 4, some 3] := by
  decide

/-- C2 amended: synthesizing binary search over `[1,3,5,7,9,11]` with
target `7` produces comparison steps with `mid` values `2, 4, 3`, then a
`found = true` step at `mid = 3` (the index holding value `7`), for a
total of 5 steps (one initial step, three comparison steps, one found
step). -/
theorem claim2_amended :
    (generateVisualizationSteps "Binary Search" ⟨[[1, 3, 5, 7, 9, 11]], some 7⟩).length = 5 ∧
      (generateVisualizationSteps "Binary Search"
          ⟨[[1, 3, 5, 7, 9, 11]], some 7⟩).map stepMid =
        [none, some 2, some 4, some 3, some 3] ∧
      (generateVisualizationSteps "Binary Search"
          ⟨[[1, 3, 5, 7, 9, 11]], some 7⟩).map stepFound =
        [false, false, false, false, true] ∧
      jsIndex [1, 3, 5, 7, 9, 11] 3 = some 7 := by
  decide

/-- C4 counterexample: on the text `"arr = [1, 3, 5, 7, 9, 11]\ntarget = 7"`
the extracted `sequences` list is not the one-element list
`[[1,3,5,7,9,11]]` (both the generic bracket pattern and the
`arr = [...]` pattern match, so the sequence appears twice). -/
theorem claim4_counterexample :
    (parseCodeInput "arr = [1, 3, 5, 7, 9, 11]\ntarget = 7" none none).arrays ≠
      [[1, 3, 5, 7, 9, 11]] := by
  decide

/-- C4 amended: extracting from `"arr = [1, 3, 5, 7, 9, 11]\ntarget = 7"`
with no overrides yields sequences `[[1,3,5,7,9,11], [1,3,5,7,9,11]]`
(the same array captured once by the generic bracket pattern and once by
the `arr = [...]` pattern) and target `7`. -/
theorem claim4_amended :
    parseCodeInput "arr = [1, 3, 5, 7, 9, 11]\ntarget = 7" none none =
      ⟨[[1, 3, 5, 7, 9, 11], [1, 3, 5, 7, 9, 11]], some 7⟩ := by
  decide

/-- C5: `extract` (`parseCodeInput`) is total: for every text and
overrides it returns an instance with at least one non-empty integer
sequence and a defined target; when parsing yields nothing the default
sequence `[1,3,5,7,9,11,13,15,17,19]` and default target `7` are
substituted. -/
theorem claim5_extract_total (code : String) (ca ct : Option String) :
    (parseCodeInput code ca ct).arrays ≠ [] ∧
      (∀ a ∈ (parseCodeInput code ca ct).arrays, a ≠ []) ∧
      ((parseCodeInput code ca ct).target).isSome = true ∧
      parseCodeInput "" none none =
        ⟨[[1, 3, 5, 7, 9, 11, 13, 15, 17, 19]], some 7⟩ := by
  refine ⟨(parseCodeInput_sound code ca ct).1, (parseCodeInput_sound code ca ct).2.1,
    (parseCodeInput_sound code ca ct).2.2, by decide⟩

/-- Witness for C5 (the `∀ a ∈ arrays` conjunct instantiated). -/
theorem claim5_witness :
    (parseCodeInput "x = [4,5]" none none).arrays ≠ [] ∧
      [4, 5] ≠ ([] : List Int) ∧
      ((parseCodeInput "x = [4,5]" none none).target).isSome = true :=
  ⟨(claim5_extract_total "x = [4,5]" none none).1,
   (claim5_extract_total "x = [4,5]" none none).2.1 [4, 5] (by decide),
   (claim5_extract_total "x = [4,5]" none none).2.2.1⟩

/-- C8 counterexample: with explicit target `0` the returned target is
not `0`: `0` is JS-falsy, so the textual patterns are consulted and
`"target = 5"` wins. -/
theorem claim8_counterexample :
    (parseCodeInput "target = 5" none (some "0")).target = some 5 ∧
      (5 : Int) ≠ 0 := by
  decide

/-- C8 amended: for every explicit target that parses to a non-zero
integer, the returned target is exactly that integer and the textual
target patterns are not consulted (the result does not depend on the code
text); an explicit target of `0` is JS-falsy and falls back to textual
extraction. -/
theorem claim8_amended (code : String) (ca : Option String) (s : String)
    (n : Int) (hn : parseIntJS s = some n) (h0 : n ≠ 0) :
    (parseCodeInput code ca (some s)).target = some n := by
  have hs : s ≠ "" := by
    intro he
    subst he
    simp [parseIntJS, skipWs, parseNumPre, takeDigits] at hn
  unfold parseCodeInput
  have h1 : customTargetVal (some s) = some n := by
    simp only [customTargetVal]
    rw [if_pos hs]
    exact hn
  have h2 : jsFalsyOptInt (some n) = false := by
    simp [jsFalsyOptInt, h0]
  simp [h1, h2]

/-- Witness for C8 amended: explicit target `"-3"` wins over a text whose
pattern would give `9`. -/
theorem claim8_witness :
    (parseCodeInput "target = 9" none (some "-3")).target = some (-3) :=
  claim8_amended "target = 9" none "-3" (-3) (by decide) (by decide)

/-- The comparison step is never marked found. -/
lemma stepFound_compStep (a : List Int) (tg l r mid : Int) (n : Nat) :
    stepFound (compStep a tg l r mid n) = false := rfl

/-- The success step is marked found. -/
lemma stepFound_foundStep (a : List Int) (tg l r mid : Int) :
    stepFound (foundStep a tg l r mid) = true := rfl

/-- The initial step is not a comparison step. -/
lemma isComparison_initStep (a : List Int) (tg l r : Int) :
    isComparison (initStep a tg l r) = false := rfl

/-- The success step is not a comparison step. -/
lemma isComparison_foundStep (a : List Int) (tg l r mid : Int) :
    isComparison (foundStep a tg l r mid) = false := rfl

/-- The comparison step is a comparison step. -/
lemma isComparison_compStep (a : List Int) (tg l r mid : Int) (n : Nat) :
    isComparison (compStep a tg l r mid n) = true := rfl

/-- Comparison steps sit strictly below the fuel bound: the loop emits at
most `fuel` comparison steps, at positions `0, …, fuel - 1` of its
output. -/
lemma bsLoopF_comp_pos (a : List Int) (tg : Int) :
    ∀ (fuel : Nat) (l r : Int) (n : Nat) (i : Nat) (s : VisStep),
      (bsLoopF a tg fuel l r n).get? i = some s → isComparison s = true →
        i < fuel := by
  intro fuel
  induction fuel with
  | zero => intro l r n i s h _; simp [bsLoopF] at h
  | succ f ih =>
    intro l r n i s h hc
    simp only [bsLoopF] at h
    split at h
    · split at h
      · rcases i with _ | _ | i
        · omega
        · simp only [List.get?_cons_succ, List.get?_cons_zero,
            Option.some.injEq] at h
          subst h
          simp [isComparison_foundStep] at hc
        · simp at h
      · split at h
        · rcases i with _ | i
          · omega
          · simp only [List.get?_cons_succ] at h
            exact Nat.succ_lt_succ (ih _ _ _ _ _ h hc)
        · rcases i with _ | i
          · omega
          · simp only [List.get?_cons_succ] at h
            exact Nat.succ_lt_succ (ih _ _ _ _ _ h hc)
    · simp at h

/-- A found step is final, carries the loop's array and target, and its
`mid` really holds the target. -/
lemma bsLoopF_found (a : List Int) (tg : Int) :
    ∀ (fuel : Nat) (l r : Int) (n : Nat) (i : Nat) (s : VisStep),
      (bsLoopF a tg fuel l r n).get? i = some s → stepFound s = true →
        i + 1 = (bsLoopF a tg fuel l r n).length ∧ stepArray s = a ∧
          stepTarget s = some tg ∧
          ∃ m, stepMid s = some m ∧ jsIndex a m = some tg := by
  intro fuel
  induction fuel with
  | zero => intro l r n i s h hf; simp [bsLoopF] at h
  | succ f ih =>
    intro l r n i s h hf
    simp only [bsLoopF]
    simp only [bsLoopF] at h
    split at h
    · split at h
      · rcases i with _ | _ | i
        · simp only [List.get?_cons_zero, Option.some.injEq] at h
          subst h
          simp [stepFound_compStep] at hf
        · simp only [List.get?_cons_succ, List.get?_cons_zero, Option.some.injEq] at h
          subst h
          refine ⟨by simp_all, rfl, rfl, (l + r) / 2, rfl, by assumption⟩
        · simp at h
      · split at h
        · rcases i with _ | i
          · simp only [List.get?_cons_zero, Option.some.injEq] at h
            subst h
            simp [stepFound_compStep] at hf
          · simp only [List.get?_cons_succ] at h
            rcases ih _ _ _ _ _ h hf with ⟨hlen, hrest⟩
            refine ⟨?_, hrest⟩
            simp_all [List.length_cons]
        · rcases i with _ | i
          · simp only [List.get?_cons_zero, Option.some.injEq] at h
            subst h
            simp [stepFound_compStep] at hf
          · simp only [List.get?_cons_succ] at h
            rcases ih _ _ _ _ _ h hf with ⟨hlen, hrest⟩
            refine ⟨?_, hrest⟩
            simp_all [List.length_cons]
    · simp at h

/-- Bounds invariant of the loop: with `0 ≤ left` and
`right ≤ |array| - 1` on entry, every emitted step's snapshot satisfies
`0 ≤ left ≤ mid ≤ right ≤ |array| - 1`, and the `array[mid]` access is in
bounds. -/
lemma bsLoopF_bounds (a : List Int) (tg : Int) :
    ∀ (fuel : Nat) (l r : Int) (n : Nat), 0 ≤ l → r ≤ (a.length : Int) - 1 →
      ∀ s ∈ bsLoopF a tg fuel l r n,
        stepArray s = a ∧
          ∃ le ri m, stepLeft s = some le ∧ stepRight s = some ri ∧
            stepMid s = some m ∧ 0 ≤ le ∧ le ≤ m ∧ m ≤ ri ∧
            ri ≤ (a.length : Int) - 1 ∧ (jsIndex a m).isSome = true := by
  intro fuel
  induction fuel with
  | zero => intro l r n _ _ s hs; simp [bsLoopF] at hs
  | succ f ih =>
    intro l r n hl hr s hs
    simp only [bsLoopF] at hs
    split at hs
    · rename_i hlr
      have hmid1 : l ≤ (l + r) / 2 := by omega
      have hmid2 : (l + r) / 2 ≤ r := by omega
      have hsome : (jsIndex a ((l + r) / 2)).isSome = true := by
        unfold jsIndex
        rw [if_neg (by omega)]
        have hlen : ((l + r) / 2).toNat < a.length := by omega
        simp [List.getElem?_eq_getElem hlen]
      have hc : stepArray (compStep a tg l r ((l + r) / 2) n) = a ∧
          ∃ le ri m, stepLeft (compStep a tg l r ((l + r) / 2) n) = some le ∧
            stepRight (compStep a tg l r ((l + r) / 2) n) = some ri ∧
            stepMid (compStep a tg l r ((l + r) / 2) n) = some m ∧
            0 ≤ le ∧ le ≤ m ∧ m ≤ ri ∧ ri ≤ (a.length : Int) - 1 ∧
            (jsIndex a m).isSome = true :=
        ⟨rfl, l, r, (l + r) / 2, rfl, rfl, rfl, hl, hmid1, hmid2, hr, hsome⟩
      split at hs
      · simp only [List.mem_cons, List.not_mem_nil, or_false] at hs
        rcases hs with hs | hs
        · subst hs; exact hc
        · subst hs
          exact ⟨rfl, l, r, (l + r) / 2, rfl, rfl, rfl, hl, hmid1, hmid2, hr, hsome⟩
      · split at hs
        · simp only [List.mem_cons] at hs
          rcases hs with hs | hs
          · subst hs; exact hc
          · exact ih _ _ _ (by omega) hr s hs
        · simp only [List.mem_cons] at hs
          rcases hs with hs | hs
          · subst hs; exact hc
          · exact ih _ _ _ hl (by omega) s hs
    · simp at hs

/-- C3: after the initial step, the comparison loop runs only while
`left ≤ right` and the number of steps emitted so far is below the hard
cap `10` (the counter enters at `1`, counting the initial step, and
increments once per comparison, so a comparison step can only sit at
positions `1..9` of the trace); each iteration computes
`mid = floor((left + right) / 2)`, emits one comparison step, and then
either terminates with a found step, moves `left` to `mid + 1`, or moves
`right` to `mid - 1`. -/
theorem claim3_loop_guard_and_body :
    (∀ (a : List Int) (tg l r : Int) (n : Nat),
      ¬(l ≤ r ∧ n < 10) → bsLoop a tg l r n = []) ∧
    (∀ (a : List Int) (tg l r : Int) (n : Nat), l ≤ r → n < 10 →
      bsLoop a tg l r n =
        compStep a tg l r ((l + r) / 2) n ::
          (if jsIndex a ((l + r) / 2) = some tg then
            [foundStep a tg l r ((l + r) / 2)]
          else if jsLtTarget (jsIndex a ((l + r) / 2)) tg then
            bsLoop a tg ((l + r) / 2 + 1) r (n + 1)
          else bsLoop a tg l ((l + r) / 2 - 1) (n + 1))) ∧
    (∀ (p : ParseResult) (i : Nat) (s : VisStep),
      (generateBinarySearchSteps p).get? i = some s →
        isComparison s = true → 1 ≤ i ∧ i < 10) := by
  refine ⟨?_, ?_, ?_⟩
  · intro a tg l r n h
    unfold bsLoop
    rcases Nat.eq_zero_or_pos (10 - n) with h0 | hpos
    · rw [h0]
      rfl
    · have hn : n < 10 := by omega
      have hl : ¬ l ≤ r := fun hle => h ⟨hle, hn⟩
      obtain ⟨fuel, hf⟩ : ∃ f, 10 - n = f + 1 := ⟨10 - n - 1, by omega⟩
      rw [hf]
      simp [bsLoopF, hl]
  · intro a tg l r n hlr hn
    unfold bsLoop
    have hf : 10 - n = (10 - (n + 1)) + 1 := by omega
    rw [hf]
    simp only [bsLoopF, if_pos hlr]
    split_ifs <;> rfl
  · intro p i s h hcomp
    rcases i with _ | i
    · have hset : initStep (chosenArray p) (chosenTarget p) 0
          ((chosenArray p).length - 1) = s := by
        simpa [generateBinarySearchSteps] using h
      rw [← hset] at hcomp
      simp [isComparison_initStep] at hcomp
    · refine ⟨by omega, ?_⟩
      have h' : (bsLoop (chosenArray p) (chosenTarget p) 0
          ((chosenArray p).length - 1) 1).get? i = some s := by
        simpa [generateBinarySearchSteps] using h
      have := bsLoopF_comp_pos (chosenArray p) (chosenTarget p) 9 0
        ((chosenArray p).length - 1) 1 i s (by simpa [bsLoop] using h') hcomp
      omega

/-- Witness for C3: on `[1,3,5,7,9,11]` with target `7`, the guard-true
equation at `left = 0, right = 5, stepCount = 1`, the guard-false
equation at crossed bounds, and the position bound at the first
comparison step of the synthesized trace. -/
theorem claim3_witness :
    bsLoop [1, 3, 5, 7, 9, 11] 7 5 3 2 = [] ∧
      bsLoop [1, 3, 5, 7, 9, 11] 7 0 5 1 =
        compStep [1, 3, 5, 7, 9, 11] 7 0 5 ((0 + 5) / 2) 1 ::
          (if jsIndex [1, 3, 5, 7, 9, 11] ((0 + 5) / 2) = some 7 then
            [foundStep [1, 3, 5, 7, 9, 11] 7 0 5 ((0 + 5) / 2)]
          else if jsLtTarget (jsIndex [1, 3, 5, 7, 9, 11] ((0 + 5) / 2)) 7 then
            bsLoop [1, 3, 5, 7, 9, 11] 7 ((0 + 5) / 2 + 1) 5 2
          else bsLoop [1, 3, 5, 7, 9, 11] 7 0 ((0 + 5) / 2 - 1) 2) ∧
      (1 ≤ 1 ∧ 1 < 10) :=
  ⟨claim3_loop_guard_and_body.1 [1, 3, 5, 7, 9, 11] 7 5 3 2 (by decide),
   claim3_loop_guard_and_body.2.1 [1, 3, 5, 7, 9, 11] 7 0 5 1 (by decide) (by decide),
   claim3_loop_guard_and_body.2.2 ⟨[[1, 3, 5, 7, 9, 11]], some 7⟩ 1
     (compStep [1, 3, 5, 7, 9, 11] 7 0 5 2 1) (by decide) (by decide)⟩

/-- C9: in every binary-search trace a `found = true` step is emitted
only when `array[mid]` equals the target, is always the final step of the
trace, and is unique (so every preceding step has `found = false`); the
found step is emitted even when the step cap has been reached (last
conjunct: at step counter `9`, the last allowed iteration, the found step
is still pushed after the comparison step). -/
theorem claim9_found_terminal :
    (∀ (p : ParseResult) (i : Nat) (s : VisStep),
      (generateBinarySearchSteps p).get? i = some s → stepFound s = true →
        i + 1 = (generateBinarySearchSteps p).length ∧
          stepArray s = chosenArray p ∧ stepTarget s = some (chosenTarget p) ∧
          ∃ m, stepMid s = some m ∧
            jsIndex (chosenArray p) m = some (chosenTarget p)) ∧
    (∀ (p : ParseResult) (i j : Nat) (s s' : VisStep),
      (generateBinarySearchSteps p).get? i = some s →
        (generateBinarySearchSteps p).get? j = some s' →
        stepFound s = true → stepFound s' = true → i = j) ∧
    (bsLoop [5] 5 0 0 9).map stepFound = [false, true] := by
  have key : ∀ (p : ParseResult) (i : Nat) (s : VisStep),
      (generateBinarySearchSteps p).get? i = some s → stepFound s = true →
        i + 1 = (generateBinarySearchSteps p).length ∧
          stepArray s = chosenArray p ∧ stepTarget s = some (chosenTarget p) ∧
          ∃ m, stepMid s = some m ∧
            jsIndex (chosenArray p) m = some (chosenTarget p) := by
    intro p i s h hf
    rcases i with _ | i
    · have hset : initStep (chosenArray p) (chosenTarget p) 0
          ((chosenArray p).length - 1) = s := by
        simpa [generateBinarySearchSteps] using h
      rw [← hset] at hf
      simp [stepFound, initStep] at hf
    · have h' : (bsLoopF (chosenArray p) (chosenTarget p) 9 0
          ((chosenArray p).length - 1) 1).get? i = some s := by
        simpa [generateBinarySearchSteps, bsLoop] using h
      rcases bsLoopF_found (chosenArray p) (chosenTarget p) 9 0
          ((chosenArray p).length - 1) 1 i s h' hf with ⟨hlen, ha, ht, hm⟩
      refine ⟨?_, ha, ht, hm⟩
      have hgoal : (generateBinarySearchSteps p).length =
          (bsLoopF (chosenArray p) (chosenTarget p) 9 0
            ((chosenArray p).length - 1) 1).length + 1 := by
        simp [generateBinarySearchSteps, bsLoop]
      omega
  refine ⟨key, ?_, by decide⟩
  intro p i j s s' hi hj hfi hfj
  have h1 := (key p i s hi hfi).1
  have h2 := (key p j s' hj hfj).1
  omega

/-- Witness for C9 on `[1,3,5,7,9,11]` with target `7`: the found step is
step 5 of 5, at `mid = 3` where the array holds the target. -/
theorem claim9_witness :
    4 + 1 = (generateBinarySearchSteps ⟨[[1, 3, 5, 7, 9, 11]], some 7⟩).length ∧
      stepArray (foundStep [1, 3, 5, 7, 9, 11] 7 3 3 3) =
        chosenArray ⟨[[1, 3, 5, 7, 9, 11]], some 7⟩ ∧
      stepTarget (foundStep [1, 3, 5, 7, 9, 11] 7 3 3 3) =
        some (chosenTarget ⟨[[1, 3, 5, 7, 9, 11]], some 7⟩) ∧
      ∃ m, stepMid (foundStep [1, 3, 5, 7, 9, 11] 7 3 3 3) = some m ∧
        jsIndex (chosenArray ⟨[[1, 3, 5, 7, 9, 11]], some 7⟩) m =
          some (chosenTarget ⟨[[1, 3, 5, 7, 9, 11]], some 7⟩) :=
  claim9_found_terminal.1 ⟨[[1, 3, 5, 7, 9, 11]], some 7⟩ 4
    (foundStep [1, 3, 5, 7, 9, 11] 7 3 3 3) (by decide) (by decide)

/-- C10: in every binary-search trace, every comparison step's snapshot
satisfies `0 ≤ left ≤ mid ≤ right ≤ length(array) - 1`, so the
`array[mid]` access that produced it is in bounds; over an empty array
the loop body never executes and the trace is just the initial step. -/
theorem claim10_bounds_safety :
    (∀ (p : ParseResult), ∀ s ∈ generateBinarySearchSteps p,
      isComparison s = true →
        stepArray s = chosenArray p ∧
        ∃ le ri m, stepLeft s = some le ∧ stepRight s = some ri ∧
          stepMid s = some m ∧ 0 ≤ le ∧ le ≤ m ∧ m ≤ ri ∧
          ri ≤ ((chosenArray p).length : Int) - 1 ∧
          (jsIndex (chosenArray p) m).isSome = true) ∧
    (∀ (p : ParseResult), chosenArray p = [] →
      generateBinarySearchSteps p = [initStep [] (chosenTarget p) 0 (-1)]) := by
  constructor
  · intro p s hs hcomp
    simp only [generateBinarySearchSteps, List.mem_cons] at hs
    rcases hs with hs | hs
    · rw [hs] at hcomp
      simp [isComparison_initStep] at hcomp
    · exact bsLoopF_bounds (chosenArray p) (chosenTarget p) 9 0
        ((chosenArray p).length - 1) 1 (by omega) (by omega) s
        (by simpa [bsLoop] using hs)
  · intro p hp
    simp only [generateBinarySearchSteps, hp]
    norm_num
    unfold bsLoop
    rw [show (10 : Nat) - 1 = 8 + 1 from rfl]
    simp [bsLoopF]

/-- Witness for C10: the first comparison step of the trace over
`[1,3,5,7,9,11]` (target `7`), and the empty-array trace. -/
theorem claim10_witness :
    (stepArray (compStep [1, 3, 5, 7, 9, 11] 7 0 5 2 1) =
        chosenArray ⟨[[1, 3, 5, 7, 9, 11]], some 7⟩ ∧
      ∃ le ri m, stepLeft (compStep [1, 3, 5, 7, 9, 11] 7 0 5 2 1) = some le ∧
        stepRight (compStep [1, 3, 5, 7, 9, 11] 7 0 5 2 1) = some ri ∧
        stepMid (compStep [1, 3, 5, 7, 9, 11] 7 0 5 2 1) = some m ∧
        0 ≤ le ∧ le ≤ m ∧ m ≤ ri ∧
        ri ≤ ((chosenArray ⟨[[1, 3, 5, 7, 9, 11]], some 7⟩).length : Int) - 1 ∧
        (jsIndex (chosenArray ⟨[[1, 3, 5, 7, 9, 11]], some 7⟩) m).isSome = true) ∧
      generateBinarySearchSteps ⟨[([] : List Int)], some 3⟩ =
        [initStep [] (chosenTarget ⟨[([] : List Int)], some 3⟩) 0 (-1)] :=
  ⟨claim10_bounds_safety.1 ⟨[[1, 3, 5, 7, 9, 11]], some 7⟩
      (compStep [1, 3, 5, 7, 9, 11] 7 0 5 2 1) (by decide) (by decide),
   claim10_bounds_safety.2 ⟨[([] : List Int)], some 3⟩ (by decide)⟩

/-- The detector `detectBinarySearch` scores in `[0, 1]`. -/
lemma detectBinarySearch_range (c : String) :
    0 ≤ detectBinarySearch c ∧ detectBinarySearch c ≤ 1 := by
  simp only [detectBinarySearch]
  constructor
  · refine le_min ?_ (by norm_num)
    split_ifs <;> norm_num
  · exact le_trans (min_le_right _ _) (by norm_num)

/-- The detector `detectTwoPointers` scores in `[0, 1]` (the positive weights sum
to `0.9`, and the `mid` penalty only lowers the sum before the clamp at
`0`). -/
lemma detectTwoPointers_range (c : String) :
    0 ≤ detectTwoPointers c ∧ detectTwoPointers c ≤ 1 := by
  simp only [detectTwoPointers]
  constructor
  · exact le_max_right _ _
  · refine max_le ?_ (by norm_num)
    split_ifs <;> norm_num

/-- The detector `detectSlidingWindow` scores in `[0, 1]`. -/
lemma detectSlidingWindow_range (c : String) :
    0 ≤ detectSlidingWindow c ∧ detectSlidingWindow c ≤ 1 := by
  simp only [detectSlidingWindow]
  constructor
  · refine le_min ?_ (by norm_num)
    split_ifs <;> norm_num
  · exact le_trans (min_le_right _ _) (by norm_num)

/-- The detector `detectSorting` scores in `[0, 1]`. -/
lemma detectSorting_range (c : String) :
    0 ≤ detectSorting c ∧ detectSorting c ≤ 1 := by
  simp only [detectSorting]
  constructor
  · refine le_min ?_ (by norm_num)
    split_ifs <;> norm_num
  · exact le_trans (min_le_right _ _) (by norm_num)

/-- The detector `detectDP` scores in `[0, 1]`. -/
lemma detectDP_range (c : String) :
    0 ≤ detectDP c ∧ detectDP c ≤ 1 := by
  simp only [detectDP]
  constructor
  · refine le_min ?_ (by norm_num)
    split_ifs <;> norm_num
  · exact le_trans (min_le_right _ _) (by norm_num)

/-- The detector `detectTreeTraversal` scores in `[0, 1]`. -/
lemma detectTreeTraversal_range (c : String) :
    0 ≤ detectTreeTraversal c ∧ detectTreeTraversal c ≤ 1 := by
  simp only [detectTreeTraversal]
  constructor
  · refine le_min ?_ (by norm_num)
    split_ifs <;> norm_num
  · exact le_trans (min_le_right _ _) (by norm_num)

/-- Every registry entry's confidence lies in `[0, 1]`. -/
lemma detectionResults_range (code : String) :
    ∀ x ∈ detectionResults code, 0 ≤ x.score ∧ x.score ≤ 1 := by
  intro x hx
  simp only [detectionResults, List.mem_cons, List.not_mem_nil, or_false] at hx
  rcases hx with h | h | h | h | h | h <;> subst h
  · exact detectBinarySearch_range _
  · exact detectTwoPointers_range _
  · exact detectSlidingWindow_range _
  · exact detectSorting_range _
  · exact detectDP_range _
  · exact detectTreeTraversal_range _

/-- Membership through stable insertion. -/
lemma mem_insertByScore {x y : NamedScore} {l : List NamedScore} :
    y ∈ insertByScore x l ↔ y = x ∨ y ∈ l := by
  induction l with
  | nil => simp [insertByScore]
  | cons z zs ih =>
    simp only [insertByScore]
    split
    · simp [List.mem_cons]
    · simp only [List.mem_cons, ih]
      tauto

/-- The stable sort is a permutation at the level of membership. -/
lemma mem_sortDesc {y : NamedScore} {l : List NamedScore} :
    y ∈ sortDesc l ↔ y ∈ l := by
  induction l with
  | nil => simp [sortDesc]
  | cons x xs ih => simp [sortDesc, mem_insertByScore, ih]

/-- Insertion grows the length by one. -/
lemma length_insertByScore (x : NamedScore) (l : List NamedScore) :
    (insertByScore x l).length = l.length + 1 := by
  induction l with
  | nil => rfl
  | cons z zs ih =>
    simp only [insertByScore]
    split <;> simp [ih]

/-- The stable sort preserves length. -/
lemma length_sortDesc (l : List NamedScore) :
    (sortDesc l).length = l.length := by
  induction l with
  | nil => rfl
  | cons x xs ih => simp [sortDesc, length_insertByScore, ih]

/-- The head of an insertion into a non-empty list. -/
lemma headD_insertByScore (x z : NamedScore) (zs : List NamedScore)
    (d : NamedScore) :
    (insertByScore x (z :: zs)).headD d =
      if x.score ≥ z.score then x else z := by
  simp only [insertByScore]
  split <;> simp

/-- The head of a non-empty list is a member. -/
lemma headD_mem {l : List NamedScore} (d : NamedScore) (h : l ≠ []) :
    l.headD d ∈ l := by
  cases l with
  | nil => exact absurd rfl h
  | cons x xs => simp

/-- The head of the sorted registry dominates every entry's score. -/
lemma sortDesc_headD_max :
    ∀ (l : List NamedScore) (d : NamedScore), ∀ y ∈ l,
      y.score ≤ ((sortDesc l).headD d).score := by
  intro l
  induction l with
  | nil => simp
  | cons x xs ih =>
    intro d y hy
    simp only [sortDesc]
    cases hS : sortDesc xs with
    | nil =>
      have hxs : xs = [] := by
        have := length_sortDesc xs
        rw [hS] at this
        exact List.length_eq_zero.mp this.symm
      subst hxs
      simp only [List.mem_cons, List.not_mem_nil, or_false] at hy
      subst hy
      simp [insertByScore]
    | cons z zs =>
      rw [headD_insertByScore]
      rcases List.mem_cons.mp hy with h | h
      · subst h
        split
        · exact le_refl _
        · next hge => exact le_of_not_le fun hc => hge hc
      · have hz : y.score ≤ z.score := by
          have := ih d y h
          rw [hS] at this
          simpa using this
        split
        · next hge => exact le_trans hz hge
        · exact hz

/-- The leftmost-maximum selection returns a member of the list. -/
lemma bestOf_mem : ∀ {l : List NamedScore} {b : NamedScore},
    bestOf l = some b → b ∈ l := by
  intro l
  induction l with
  | nil => intro b h; simp [bestOf] at h
  | cons x xs ih =>
    intro b h
    simp only [bestOf] at h
    cases hxs : bestOf xs with
    | none =>
      rw [hxs] at h
      cases h
      simp
    | some b' =>
      rw [hxs] at h
      cases h
      split
      · simp
      · simp [List.mem_cons, ih hxs]

/-- The leftmost-maximum selection dominates every score in the list. -/
lemma bestOf_max : ∀ {l : List NamedScore} {b : NamedScore},
    bestOf l = some b → ∀ y ∈ l, y.score ≤ b.score := by
  intro l
  induction l with
  | nil => intro b h; simp [bestOf] at h
  | cons x xs ih =>
    intro b h y hy
    simp only [bestOf] at h
    cases hxs : bestOf xs with
    | none =>
      rw [hxs] at h
      cases h
      have hxs' : xs = [] := by
        cases xs with
        | nil => rfl
        | cons z zs =>
          exfalso
          simp only [bestOf] at hxs
          cases hz : bestOf zs <;> rw [hz] at hxs <;> simp at hxs
      subst hxs'
      simp only [List.mem_cons, List.not_mem_nil, or_false] at hy
      subst hy
      exact le_refl _
    | some b' =>
      rw [hxs] at h
      cases h
      rcases List.mem_cons.mp hy with h | h
      · subst h
        split
        · exact le_refl _
        · next hge => exact le_of_not_le fun hc => hge hc
      · have := ih hxs y h
        split
        · next hge => exact le_trans this hge
        · exact this

/-- On a non-empty list the leftmost maximum is exactly the head of the
stable descending sort. -/
lemma bestOf_eq_sortDesc_headD :
    ∀ (l : List NamedScore) (d : NamedScore), l ≠ [] →
      bestOf l = some ((sortDesc l).headD d) := by
  intro l
  induction l with
  | nil => intro d h; exact absurd rfl h
  | cons x xs ih =>
    intro d _
    cases hxs : xs with
    | nil =>
      simp [bestOf, sortDesc, insertByScore]
    | cons z zs =>
      have hne : xs ≠ [] := by rw [hxs]; simp
      have hS : sortDesc xs ≠ [] := by
        intro hc
        have := length_sortDesc xs
        rw [hc] at this
        exact hne (List.length_eq_zero.mp this.symm)
      rw [← hxs]
      cases hSx : sortDesc xs with
      | nil => exact absurd hSx hS
      | cons w ws =>
        have hb : bestOf xs = some w := by
          have := ih d hne
          rw [hSx] at this
          simpa using this
        simp only [bestOf, hb, sortDesc, hSx, headD_insertByScore]

/-- The registry evaluated on the empty string: no keyword matches, all
six confidences are `0`. -/
lemma detectionResults_empty_eq : detectionResults "" =
    [⟨"Binary Search", 0⟩, ⟨"Two Pointers", 0⟩, ⟨"Sliding Window", 0⟩,
     ⟨"Sorting Algorithm", 0⟩, ⟨"Dynamic Programming", 0⟩,
     ⟨"Tree Traversal", 0⟩] := by
  simp +decide [detectionResults, detectBinarySearch, detectTwoPointers,
    detectSlidingWindow, detectSorting, detectDP, detectTreeTraversal]
  norm_num

/-- The registry evaluated on `"window start end sort swap"`: the
sliding-window and sorting detectors tie at `0.7`, everything else is
`0`. -/
lemma detectionResults_tie_eq : detectionResults "window start end sort swap" =
    [⟨"Binary Search", 0⟩, ⟨"Two Pointers", 0⟩, ⟨"Sliding Window", 0.7⟩,
     ⟨"Sorting Algorithm", 0.7⟩, ⟨"Dynamic Programming", 0⟩,
     ⟨"Tree Traversal", 0⟩] := by
  simp +decide [detectionResults, detectBinarySearch, detectTwoPointers,
    detectSlidingWindow, detectSorting, detectDP, detectTreeTraversal]
  norm_num

/-- On the empty string all detectors tie at `0`, and the sentinel label
is returned (the tied top score does not clear the threshold). -/
lemma detectAlgorithm_empty : detectAlgorithm "" = "Unknown Algorithm" := by
  unfold detectAlgorithm bestMatch
  rw [detectionResults_empty_eq]
  norm_num [sortDesc, insertByScore]

/-- On the tie `"window start end sort swap"` the first-registered of the
two `0.7` detectors, Sliding Window, wins. -/
lemma detectAlgorithm_tie :
    detectAlgorithm "window start end sort swap" = "Sliding Window" := by
  unfold detectAlgorithm bestMatch
  rw [detectionResults_tie_eq]
  norm_num [sortDesc, insertByScore]

/-- C6: for every input text, `classify` returns exactly one label — the
top-scoring detector's pattern name from the closed six-detector set when
its confidence exceeds `0.3`, and the sentinel `"Unknown Algorithm"`
otherwise — and the top confidence it computes lies in `[0, 1]` and
dominates every detector's score.  (The source function returns only the
label; `bestMatch` is its internally computed top entry.) -/
theorem claim6_classifier_decision (code : String) :
    detectAlgorithm code =
      (if (bestMatch code).score > 0.3 then (bestMatch code).name
       else "Unknown Algorithm") ∧
    bestMatch code ∈ detectionResults code ∧
    (bestMatch code).name ∈
      ["Binary Search", "Two Pointers", "Sliding Window", "Sorting Algorithm",
       "Dynamic Programming", "Tree Traversal"] ∧
    0 ≤ (bestMatch code).score ∧ (bestMatch code).score ≤ 1 ∧
    ∀ y ∈ detectionResults code, y.score ≤ (bestMatch code).score := by
  have hne : sortDesc (detectionResults code) ≠ [] := by
    intro hc
    have := length_sortDesc (detectionResults code)
    rw [hc] at this
    simp [detectionResults] at this
  have hmem : bestMatch code ∈ detectionResults code := by
    unfold bestMatch
    exact mem_sortDesc.mp (headD_mem _ hne)
  refine ⟨rfl, hmem, ?_, (detectionResults_range code _ hmem).1,
    (detectionResults_range code _ hmem).2, ?_⟩
  · simp only [detectionResults, List.mem_cons, List.not_mem_nil, or_false] at hmem
    rcases hmem with h | h | h | h | h | h <;> rw [h] <;> simp
  · intro y hy
    exact sortDesc_headD_max (detectionResults code) _ y hy

/-- Witness for C6 on the empty string: the two-pointers entry's score is
dominated by the top score. -/
theorem claim6_witness :
    detectAlgorithm "" =
      (if (bestMatch "").score > 0.3 then (bestMatch "").name
       else "Unknown Algorithm") ∧
    (⟨"Two Pointers", detectTwoPointers (toLowerCase "")⟩ : NamedScore).score ≤
      (bestMatch "").score :=
  ⟨(claim6_classifier_decision "").1,
   (claim6_classifier_decision "").2.2.2.2.2
     ⟨"Two Pointers", detectTwoPointers (toLowerCase "")⟩
     (by simp [detectionResults])⟩

/-- C7 counterexample: on the empty string all six detectors produce the
same top confidence (`0`), yet `classify` does not return the label of
the first-registered detector (`"Binary Search"`) — the tied top score is
below the threshold, so the sentinel is returned instead. -/
theorem claim7_counterexample :
    (detectionResults "").map NamedScore.score = [0, 0, 0, 0, 0, 0] ∧
      detectAlgorithm "" = "Unknown Algorithm" ∧
      "Unknown Algorithm" ≠ "Binary Search" := by
  refine ⟨?_, detectAlgorithm_empty, by decide⟩
  rw [detectionResults_empty_eq]
  rfl

/-- C7 amended: ties in the top confidence are broken in favor of the
first-registered detector (the selection prefers an earlier entry unless
a later one scores strictly higher), deterministically and never as an
error; the first-registered top detector's label is the one returned when
the top confidence exceeds `0.3`, and otherwise the sentinel is returned
(a tie at or below the threshold yields `"Unknown Algorithm"`, not the
tied label).  Concretely, on `"window start end sort swap"` Sliding
Window and Sorting Algorithm tie at `0.7` and the earlier-registered
Sliding Window wins. -/
theorem claim7_amended_tiebreak :
    (∀ code : String, detectAlgorithm code =
      (match bestOf (detectionResults code) with
       | some b => if b.score > 0.3 then b.name else "Unknown Algorithm"
       | none => "Unknown Algorithm")) ∧
    (∀ (x : NamedScore) (xs : List NamedScore) (b : NamedScore),
      bestOf (x :: xs) = some b → b = x ∨ (b ∈ xs ∧ x.score < b.score)) ∧
    (∀ (l : List NamedScore) (b : NamedScore), bestOf l = some b →
      ∀ y ∈ l, y.score ≤ b.score) ∧
    detectAlgorithm "window start end sort swap" = "Sliding Window" ∧
    (detectionResults "window start end sort swap").map NamedScore.score =
      [0, 0, 0.7, 0.7, 0, 0] := by
  refine ⟨?_, ?_, fun l b h y hy => bestOf_max h y hy, detectAlgorithm_tie, ?_⟩
  · intro code
    have hne : detectionResults code ≠ [] := by simp [detectionResults]
    rw [bestOf_eq_sortDesc_headD (detectionResults code)
      ⟨"Unknown Algorithm", 0⟩ hne]
    rfl
  · intro x xs b h
    simp only [bestOf] at h
    cases hxs : bestOf xs with
    | none =>
      rw [hxs] at h
      cases h
      exact Or.inl rfl
    | some b' =>
      rw [hxs] at h
      cases h
      split
      · exact Or.inl rfl
      · next hge =>
        exact Or.inr ⟨bestOf_mem hxs, lt_of_not_le fun hc => hge hc⟩
  · rw [detectionResults_tie_eq]
    rfl

/-- Witness for C7 amended: the tie-break disjunction at a concrete
two-element tie, and the maximality at the same list. -/
theorem claim7_witness :
    ((⟨"a", 1⟩ : NamedScore) = ⟨"a", 1⟩ ∨
      ((⟨"a", 1⟩ : NamedScore) ∈ [(⟨"b", 1⟩ : NamedScore)] ∧
        (1 : ℚ) < 1)) ∧
    (⟨"b", 1⟩ : NamedScore).score ≤ (⟨"a", 1⟩ : NamedScore).score :=
  ⟨claim7_amended_tiebreak.2.1 ⟨"a", 1⟩ [⟨"b", 1⟩] ⟨"a", 1⟩
     (by norm_num [bestOf]),
   claim7_amended_tiebreak.2.2.1 [⟨"a", 1⟩, ⟨"b", 1⟩] ⟨"a", 1⟩
     (by norm_num [bestOf]) ⟨"b", 1⟩ (by simp)⟩
